import Mathlib

/-!
# Verification of the threat-shield attack-tree core

Shallow embedding of the attack-tree layout engine, diagram exporter and
tree normalizer of the `threatshield/threatshield` repository
(`src/threat-shield/src/pages/AttackTree.tsx` and
`src/threat-shield/src/pages/Dread.tsx`), together with theorems settling
the specification claims about them.

JavaScript numbers are embedded as rationals (`ℚ`): every arithmetic
operation the layout code performs on coordinates (addition, subtraction,
multiplication, halving, `Math.max`) is modelled exactly.  Node lists are
Lean lists; optional JSON fields are `Option`.
-/

/-- A node of the attack tree, as produced upstream and consumed by both the
layout engine and the diagram exporter.  Mirrors the TypeScript interface
`AttackTreeNode { id; type; label; children? }`.  The `type` field is kept
as an optional raw string (the runtime value may be absent or an
unrecognized string even though the declared TS type is the union
`'goal' | 'attack' | 'vulnerability'`).  A missing `children` array is
embedded as the empty list: the source only ever tests
`node.children && node.children.length > 0`, which cannot distinguish an
absent array from an empty one. -/
inductive AttackTreeNode : Type where
  | mk (id : String) (type? : Option String) (label : String)
       (children : List AttackTreeNode)
deriving Repr

/-- The `id` field of a tree node. -/
def AttackTreeNode.id : AttackTreeNode → String
  | .mk i _ _ _ => i

/-- The raw `type` field of a tree node (`none` when absent). -/
def AttackTreeNode.type? : AttackTreeNode → Option String
  | .mk _ t _ _ => t

/-- The `label` field of a tree node. -/
def AttackTreeNode.label : AttackTreeNode → String
  | .mk _ _ l _ => l

/-- The `children` list of a tree node. -/
def AttackTreeNode.children : AttackTreeNode → List AttackTreeNode
  | .mk _ _ _ cs => cs

mutual

/-- Number of nodes of a tree (the node itself and all descendants). -/
def AttackTreeNode.size : AttackTreeNode → ℕ
  | .mk _ _ _ cs => 1 + AttackTreeNode.sizeList cs
termination_by structural t => t

/-- Total number of nodes of a list of trees. -/
def AttackTreeNode.sizeList : List AttackTreeNode → ℕ
  | [] => 0
  | c :: rest => c.size + AttackTreeNode.sizeList rest
termination_by structural l => l

end

/-- Spacing configuration for one depth level, mirroring the object literals
`level1: { xGapMultiplier, siblingFactor }` and
`level2: { xGapMultiplier, siblingFactor }` in `AttackTree.tsx`. -/
structure LevelSpacing where
  xGapMultiplier : ℚ
  siblingFactor : ℚ
deriving Repr

/-- The spacing configuration object defined at the top of
`processAttackTreeData` in `AttackTree.tsx` (`const config = {...}`). -/
structure SpacingConfig where
  baseWidth : ℚ
  level0xGap : ℚ
  level1 : LevelSpacing
  level2 : LevelSpacing
  verticalBase : ℚ
  verticalIncrement : ℚ
  horizontalOffset : ℚ
deriving Repr

/-- The concrete configuration hard-coded in `processAttackTreeData`
(`AttackTree.tsx` lines 288-295): `baseWidth: 250`,
`level1: { xGapMultiplier: 1.8, siblingFactor: 0.5 }`,
`level2: { xGapMultiplier: 1.0, siblingFactor: 0.6 }`,
`verticalBase: 160`, `verticalIncrement: 25`, `horizontalOffset: 15`. -/
def defaultSpacingConfig : SpacingConfig where
  baseWidth := 250
  level0xGap := 0
  level1 := { xGapMultiplier := 9 / 5, siblingFactor := 1 / 2 }
  level2 := { xGapMultiplier := 1, siblingFactor := 3 / 5 }
  verticalBase := 160
  verticalIncrement := 25
  horizontalOffset := 15

/-- A positioned flow node as pushed onto `flowNodes` by `createNodes`
(`AttackTree.tsx` lines 337-349).  The constant `style` object is omitted:
it is identical for every node and carries no algorithmic content. -/
structure FlowNode where
  id : String
  type : String
  x : ℚ
  y : ℚ
  label : String
deriving Repr, DecidableEq

/-- A flow edge as pushed onto `flowEdges` by `createEdges`
(`AttackTree.tsx` lines 370-387).  The constant presentation fields
(`type: 'smoothstep'`, `animated`, `style`, `markerEnd`) are omitted. -/
structure FlowEdge where
  id : String
  source : String
  target : String
deriving Repr, DecidableEq

/-- The flow-node `type` computed by `createNodes`: `node.type || 'goal'`
(`AttackTree.tsx` line 339).  In JavaScript `||` substitutes `'goal'`
exactly when `node.type` is falsy, i.e. absent or the empty string; any
other string passes through unchanged. -/
def flowType : Option String → String
  | none => "goal"
  | some s => if s = "" then "goal" else s

/-- The horizontal gap `xGap` computed at the top of `createNodes`
(`AttackTree.tsx` lines 303-310): `0` at level 0,
`baseWidth * level1.xGapMultiplier * Math.max(1, totalSiblings * level1.siblingFactor)`
at level 1, and the analogous level-2 formula at every deeper level. -/
def xGapAt (cfg : SpacingConfig) (level totalSiblings : ℕ) : ℚ :=
  if level = 0 then 0
  else if level = 1 then
    cfg.baseWidth * cfg.level1.xGapMultiplier *
      max 1 ((totalSiblings : ℚ) * cfg.level1.siblingFactor)
  else
    cfg.baseWidth * cfg.level2.xGapMultiplier *
      max 1 ((totalSiblings : ℚ) * cfg.level2.siblingFactor)

/-- The vertical coordinate computed by `createNodes`
(`AttackTree.tsx` lines 313-317):
`yGap = verticalBase + level * verticalIncrement` and `y = level * yGap`. -/
def yAt (cfg : SpacingConfig) (level : ℕ) : ℚ :=
  let yGap := cfg.verticalBase + (level : ℚ) * cfg.verticalIncrement
  (level : ℚ) * yGap

/-- The horizontal coordinate computed by `createNodes`
(`AttackTree.tsx` lines 316-331): `0` at level 0; at level 1
`startX + position * xGap` with `startX = -(xGap * (totalSiblings-1))/2`;
at deeper levels centered under the parent with the small per-index
lateral `horizontalOffset` added. -/
def xAt (cfg : SpacingConfig) (level position totalSiblings : ℕ)
    (parentX : ℚ) : ℚ :=
  let xGap := xGapAt cfg level totalSiblings
  if level = 0 then 0
  else if level = 1 then
    let totalWidth := xGap * ((totalSiblings : ℚ) - 1)
    let startX := -totalWidth / 2
    startX + (position : ℚ) * xGap
  else
    let childOffset := (((totalSiblings : ℚ) - 1) * xGap) / 2
    let offsetMultiplier := (position : ℚ) - ((totalSiblings : ℚ) - 1) / 2
    parentX - childOffset + (position : ℚ) * xGap +
      offsetMultiplier * cfg.horizontalOffset

mutual

/-- The recursive `createNodes` closure of `processAttackTreeData`
(`AttackTree.tsx` lines 298-357), returning the list of flow nodes it
pushes (in push order: the node itself, then its children depth-first).
The mutable `flowNodes` accumulator of the source is rendered as the
returned list; `nodePositions` is only read by the source for edge
creation, which in fact re-derives endpoints from ids, so it needs no
counterpart here. -/
def createNodes (cfg : SpacingConfig) :
    AttackTreeNode → ℕ → ℕ → ℕ → ℚ → List FlowNode
  | .mk i t l cs, level, position, totalSiblings, parentX =>
    let x := xAt cfg level position totalSiblings parentX
    let y := yAt cfg level
    { id := i, type := flowType t, x := x, y := y, label := l } ::
      createNodesList cfg cs (level + 1) 0 cs.length x
termination_by structural t => t

/-- The `node.children.forEach((childNode, idx) => createNodes(...))` loop
of `createNodes` (`AttackTree.tsx` lines 352-356): each child is processed
at the next level with its index as `position` and the parent's
`children.length` as `totalSiblings`. -/
def createNodesList (cfg : SpacingConfig) :
    List AttackTreeNode → ℕ → ℕ → ℕ → ℚ → List FlowNode
  | [], _, _, _, _ => []
  | c :: rest, level, idx, totalSiblings, parentX =>
    createNodes cfg c level idx totalSiblings parentX ++
      createNodesList cfg rest level (idx + 1) totalSiblings parentX
termination_by structural l => l

end

mutual

/-- The recursive `createEdges` closure of `processAttackTreeData`
(`AttackTree.tsx` lines 367-393), returning the list of edges it pushes:
for each child one edge `{id: parent-child, source: parent, target: child}`
followed by the child's own edges. -/
def createEdges : AttackTreeNode → List FlowEdge
  | .mk i _ _ cs => createEdgesList i cs
termination_by structural t => t

/-- The `node.children.forEach(childNode => ...)` loop of `createEdges`
(`AttackTree.tsx` lines 369-391). -/
def createEdgesList (pid : String) : List AttackTreeNode → List FlowEdge
  | [] => []
  | c :: rest =>
    { id := pid ++ "-" ++ c.id, source := pid, target := c.id } ::
      (createEdges c ++ createEdgesList pid rest)
termination_by structural l => l

end

/-- The flow-node/flow-edge pair computed by `processAttackTreeData`
before its delivery guard (`AttackTree.tsx` lines 359-396): the root is
`treeNodes[0]` ("Use the first node as root"); if the list is empty,
`if (rootNode)` fails and both accumulators stay empty. -/
def layoutFlowOutput (treeNodes : List AttackTreeNode) :
    List FlowNode × List FlowEdge :=
  match treeNodes.head? with
  | none => ([], [])
  | some root => (createNodes defaultSpacingConfig root 0 0 1 0, createEdges root)

/-- The output `processAttackTreeData` actually delivers to the
visualization adapter (`AttackTree.tsx` lines 398-404): `setNodes` and
`setEdges` run only under the guard
`flowNodes.length > 0 && flowEdges.length > 0`; otherwise nothing is set
(`console.error("No nodes or edges to set")`), modelled as `none`. -/
def processAttackTreeData (treeNodes : List AttackTreeNode) :
    Option (List FlowNode × List FlowEdge) :=
  let out := layoutFlowOutput treeNodes
  if 0 < out.1.length ∧ 0 < out.2.length then some out else none

/-! ## Diagram exporter (`Dread.tsx`, `generateSimplifiedMermaidDiagram`) -/

/-- One statement appended to `mermaidContent` by `processNode`
(`Dread.tsx` lines 1237-1254): either a node declaration
`    id["label"]` or an edge `    parent --> child`. -/
inductive MermaidStmt : Type where
  | decl (id label : String)
  | edge (source target : String)
deriving Repr, DecidableEq

/-- The label escaping `node.label.replace(/"/g, "'")` (`Dread.tsx` line
1242): every double-quote character becomes a single quote. -/
def escapeLabel (label : String) : String :=
  String.mk (label.data.map fun c =>
    if c = Char.ofNat 34 then Char.ofNat 39 else c)

/-- The text of one statement, exactly as `processNode` appends it to
`mermaidContent`. -/
def renderStmt : MermaidStmt → String
  | .decl i l => "    " ++ i ++ "[\"" ++ l ++ "\"]\n"
  | .edge s t => "    " ++ s ++ " --> " ++ t ++ "\n"

/-- Exporter traversal state: the `processedNodeIds` set (as a list) and
the statements appended to `mermaidContent` so far, in order. -/
abbrev ExportState := List String × List MermaidStmt

mutual

/-- The recursive `processNode` closure of `generateSimplifiedMermaidDiagram`
(`Dread.tsx` lines 1237-1254): an already-processed id returns the state
unchanged; otherwise the id is recorded, its declaration emitted, and each
child contributes an edge statement followed by its own processing. -/
def processNode (n : AttackTreeNode) (st : ExportState) : ExportState :=
  match n with
  | .mk i _ l cs =>
    if i ∈ st.1 then st
    else processChildren i cs (i :: st.1, st.2 ++ [.decl i (escapeLabel l)])
termination_by structural n

/-- The `node.children.forEach(child => ...)` loop of `processNode`
(`Dread.tsx` lines 1245-1253): for each child, the edge
`node.id --> child.id` is appended unconditionally, then the child is
processed. -/
def processChildren (pid : String) (cs : List AttackTreeNode)
    (st : ExportState) : ExportState :=
  match cs with
  | [] => st
  | c :: rest =>
    processChildren pid rest (processNode c (st.1, st.2 ++ [.edge pid c.id]))
termination_by structural cs

end

/-- Whether a node passes the exporter's root test `node.type === 'goal'`
(`Dread.tsx` line 1257).  A strict string comparison: absent, empty and
unrecognized kinds all fail it. -/
def isGoal (n : AttackTreeNode) : Bool := n.type? == some "goal"

/-- The exporter's root choice
`nodes.find(node => node.type === 'goal') || nodes[0]`
(`Dread.tsx` line 1257): the first node of kind `'goal'`, else the first
node of the list, else `none` for an empty list. -/
def exportRoot (nodes : List AttackTreeNode) : Option AttackTreeNode :=
  match nodes.find? isGoal with
  | some g => some g
  | none => nodes.head?

/-- The ordered statements `generateSimplifiedMermaidDiagram` appends after
the header: the traversal of the chosen root starting from an empty
visited set, or nothing when the list is empty (`if (rootNode)`). -/
def exportStmts (nodes : List AttackTreeNode) : List MermaidStmt :=
  match exportRoot nodes with
  | some r => (processNode r ([], [])).2
  | none => []

/-- `generateSimplifiedMermaidDiagram` (`Dread.tsx` lines 1232-1262): the
header `graph TD\n` followed by the statement texts in emission order.
The source builds the string by successive `+=`; concatenating the
rendered statements reproduces it byte for byte. -/
def generateSimplifiedMermaidDiagram (nodes : List AttackTreeNode) : String :=
  "graph TD\n" ++ String.join ((exportStmts nodes).map renderStmt)

/-! ## Tree normalizer (`AttackTree.tsx`, `fetchData`) -/

/-- The `attack_tree` sub-object of a storage envelope: holds the optional
node list.  A present list — even an empty one — is truthy in the source's
`if (data?...?.nodes)` tests, since JavaScript arrays are truthy. -/
structure AttackTreeObj where
  nodes : Option (List AttackTreeNode)
deriving Repr

/-- The inner `result` object (`data.result.result`).  Its `nodes` field
exists in upstream payloads but `fetchData` never reads it. -/
structure InnerResult where
  attack_tree : Option AttackTreeObj
  nodes : Option (List AttackTreeNode)
deriving Repr

/-- The outer `result` object (`data.result`). -/
structure OuterResult where
  result : Option InnerResult
  attack_tree : Option AttackTreeObj
  nodes : Option (List AttackTreeNode)
deriving Repr

/-- The JSON envelope returned by the storage endpoint.  The top-level
`nodes` field exists in upstream payloads but `fetchData` never reads it. -/
structure Envelope where
  nodes : Option (List AttackTreeNode)
  result : Option OuterResult
deriving Repr

/-- The optional chain `data?.result?.result?.attack_tree?.nodes`. -/
def resResATNodes (data : Envelope) : Option (List AttackTreeNode) :=
  data.result.bind fun r =>
    r.result.bind fun rr =>
      rr.attack_tree.bind fun a => a.nodes

/-- The optional chain `data?.result?.attack_tree?.nodes`. -/
def resATNodes (data : Envelope) : Option (List AttackTreeNode) :=
  data.result.bind fun r =>
    r.attack_tree.bind fun a => a.nodes

/-- The optional chain `data?.result?.nodes`. -/
def resNodes (data : Envelope) : Option (List AttackTreeNode) :=
  data.result.bind fun r => r.nodes

/-- The shape cascade of `fetchData` (`AttackTree.tsx` lines 172-224): the
`treeNodes` variable after the `if / else if / else if` chain.  Case 1
takes `data.result.result.attack_tree.nodes`, case 2
`data.result.attack_tree.nodes`, case 3 `data.result.nodes`; when no case
matches, `treeNodes` stays `null` and the code falls through to the
fallback / thrown-and-caught error path (lines 231-253), which never
renders these nodes — modelled as `none`. -/
def extractTreeNodes (data : Envelope) : Option (List AttackTreeNode) :=
  match resResATNodes data with
  | some ns => some ns
  | none =>
    match resATNodes data with
    | some ns => some ns
    | none =>
      match resNodes data with
      | some ns => some ns
      | none => none

/-- An envelope with the unread node-list locations cleared: the top-level
`nodes` field and the doubly-nested `result.result.nodes` field. -/
def clearUnreadNodes (data : Envelope) : Envelope :=
  { data with
    nodes := none
    result := data.result.map fun r =>
      { r with result := r.result.map fun rr => { rr with nodes := none } } }

/-! ## Specification-side definitions

Definitions below follow the spec's words, for comparison against the
embedded source functions. -/

mutual

/-- From the spec: the parent–child pairs of a tree, in depth-first order,
each pair directed parent→child ("one Edge per child, directed
parent→child"). -/
def parentChildPairs : AttackTreeNode → List (String × String)
  | .mk i _ _ cs => parentChildPairsList i cs
termination_by structural t => t

/-- The parent–child pairs contributed by a parent id and its child list. -/
def parentChildPairsList (pid : String) :
    List AttackTreeNode → List (String × String)
  | [] => []
  | c :: rest =>
    (pid, c.id) :: (parentChildPairs c ++ parentChildPairsList pid rest)
termination_by structural l => l

end

mutual

/-- From the spec: the depth of every node of a tree rooted at depth `d`,
in the preorder the layout engine visits them. -/
def depthsFrom : AttackTreeNode → ℕ → List ℕ
  | .mk _ _ _ cs, d => d :: depthsListFrom cs (d + 1)
termination_by structural t => t

/-- Depths of every node of a list of trees rooted at depth `d`. -/
def depthsListFrom : List AttackTreeNode → ℕ → List ℕ
  | [], _ => []
  | c :: rest, d => depthsFrom c d ++ depthsListFrom rest d
termination_by structural l => l

end

/-- Number of node-declaration statements for a given id in an exporter
output. -/
def countDecl (stmts : List MermaidStmt) (i : String) : ℕ :=
  stmts.countP fun s =>
    match s with
    | .decl j _ => j == i
    | .edge _ _ => false

/-- Invariant of the exporter traversal: ids in the visited set are
declared at most once, ids outside it not at all. -/
def DeclInvariant (st : ExportState) : Prop :=
  ∀ i, (i ∈ st.1 → countDecl st.2 i ≤ 1) ∧ (i ∉ st.1 → countDecl st.2 i = 0)

/-! ## Concrete sample inputs -/

/-- A leaf of kind `goal`. -/
def goalNode : AttackTreeNode := .mk "g" (some "goal") "G" []

/-- A leaf of kind `attack`. -/
def attackChildNode : AttackTreeNode := .mk "c" (some "attack") "C" []

/-- A root of kind `attack` with one child. -/
def attackRootNode : AttackTreeNode := .mk "a" (some "attack") "A" [attackChildNode]

/-- A leaf whose kind is the unrecognized string `custom`. -/
def customKindNode : AttackTreeNode := .mk "u" (some "custom") "U" []

/-- A single-node tree: one root of kind `goal` with no children. -/
def singleGoalNode : AttackTreeNode := .mk "n1" (some "goal") "Root" []

/-- A shared leaf reachable from two distinct parents. -/
def sharedChildNode : AttackTreeNode := .mk "sc" (some "vulnerability") "SC" []

/-- First parent of the shared leaf. -/
def parent1Node : AttackTreeNode := .mk "p1" (some "attack") "P1" [sharedChildNode]

/-- Second parent of the shared leaf. -/
def parent2Node : AttackTreeNode := .mk "p2" (some "attack") "P2" [sharedChildNode]

/-- A diamond: a goal root whose two children both own the same leaf id. -/
def diamondRootNode : AttackTreeNode :=
  .mk "r" (some "goal") "R" [parent1Node, parent2Node]

/-- An envelope carrying its node list only at top-level `nodes`. -/
def topNodesEnvelope : Envelope := { nodes := some [goalNode], result := none }

/-- An envelope carrying its node list only at `result.result.nodes`. -/
def resResNodesEnvelope : Envelope :=
  { nodes := none
    result := some
      { result := some { attack_tree := none, nodes := some [goalNode] }
        attack_tree := none
        nodes := none } }

/-! ## Helper lemmas -/

theorem AttackTreeNode.size_pos (n : AttackTreeNode) : 1 ≤ n.size := by
  cases n with
  | mk i t l cs => simp [AttackTreeNode.size]

mutual

theorem createNodes_length (cfg : SpacingConfig) (n : AttackTreeNode)
    (level position totalSiblings : ℕ) (parentX : ℚ) :
    (createNodes cfg n level position totalSiblings parentX).length = n.size := by
  cases n with
  | mk i t l cs =>
    have h := createNodesList_length cfg cs (level + 1) 0 cs.length
      (xAt cfg level position totalSiblings parentX)
    simp only [createNodes, List.length_cons, AttackTreeNode.size, h]
    omega
termination_by structural n

theorem createNodesList_length (cfg : SpacingConfig) (cs : List AttackTreeNode)
    (level idx totalSiblings : ℕ) (parentX : ℚ) :
    (createNodesList cfg cs level idx totalSiblings parentX).length =
      AttackTreeNode.sizeList cs := by
  cases cs with
  | nil => simp [createNodesList, AttackTreeNode.sizeList]
  | cons c rest =>
    have h1 := createNodes_length cfg c level idx totalSiblings parentX
    have h2 := createNodesList_length cfg rest level (idx + 1) totalSiblings parentX
    simp only [createNodesList, List.length_append, AttackTreeNode.sizeList, h1, h2]
termination_by structural cs

end

mutual

theorem createEdges_length (n : AttackTreeNode) :
    (createEdges n).length = n.size - 1 := by
  cases n with
  | mk i t l cs =>
    have h := createEdgesList_length i cs
    simp only [createEdges, AttackTreeNode.size, h]
    omega
termination_by structural n

theorem createEdgesList_length (pid : String) (cs : List AttackTreeNode) :
    (createEdgesList pid cs).length = AttackTreeNode.sizeList cs := by
  cases cs with
  | nil => simp [createEdgesList, AttackTreeNode.sizeList]
  | cons c rest =>
    have h1 := createEdges_length c
    have h2 := createEdgesList_length pid rest
    have h3 := c.size_pos
    simp only [createEdgesList, List.length_cons, List.length_append,
      AttackTreeNode.sizeList, h1, h2]
    omega
termination_by structural cs

end

mutual

theorem createEdges_pairs (n : AttackTreeNode) :
    (createEdges n).map (fun e => (e.source, e.target)) = parentChildPairs n := by
  cases n with
  | mk i t l cs =>
    have h := createEdgesList_pairs i cs
    simp only [createEdges, parentChildPairs, h]
termination_by structural n

theorem createEdgesList_pairs (pid : String) (cs : List AttackTreeNode) :
    (createEdgesList pid cs).map (fun e => (e.source, e.target)) =
      parentChildPairsList pid cs := by
  cases cs with
  | nil => simp [createEdgesList, parentChildPairsList]
  | cons c rest =>
    have h1 := createEdges_pairs c
    have h2 := createEdgesList_pairs pid rest
    simp only [createEdgesList, parentChildPairsList, List.map_cons,
      List.map_append, h1, h2]
termination_by structural cs

end

theorem createNodes_cons (cfg : SpacingConfig) (n : AttackTreeNode)
    (level position totalSiblings : ℕ) (parentX : ℚ) :
    createNodes cfg n level position totalSiblings parentX =
      { id := n.id, type := flowType n.type?,
        x := xAt cfg level position totalSiblings parentX,
        y := yAt cfg level, label := n.label } ::
        createNodesList cfg n.children (level + 1) 0 n.children.length
          (xAt cfg level position totalSiblings parentX) := by
  cases n with
  | mk i t l cs =>
    simp [createNodes, AttackTreeNode.id, AttackTreeNode.type?,
      AttackTreeNode.label, AttackTreeNode.children]

mutual

theorem createNodes_y_map (cfg : SpacingConfig) (n : AttackTreeNode)
    (level position totalSiblings : ℕ) (parentX : ℚ) :
    (createNodes cfg n level position totalSiblings parentX).map FlowNode.y =
      (depthsFrom n level).map
        (fun (d : ℕ) => (d : ℚ) * (cfg.verticalBase + (d : ℚ) * cfg.verticalIncrement)) := by
  cases n with
  | mk i t l cs =>
    have h := createNodesList_y_map cfg cs (level + 1) 0 cs.length
      (xAt cfg level position totalSiblings parentX)
    simp only [createNodes, depthsFrom, List.map_cons, h, yAt]
termination_by structural n

theorem createNodesList_y_map (cfg : SpacingConfig) (cs : List AttackTreeNode)
    (level idx totalSiblings : ℕ) (parentX : ℚ) :
    (createNodesList cfg cs level idx totalSiblings parentX).map FlowNode.y =
      (depthsListFrom cs level).map
        (fun (d : ℕ) => (d : ℚ) * (cfg.verticalBase + (d : ℚ) * cfg.verticalIncrement)) := by
  cases cs with
  | nil => simp [createNodesList, depthsListFrom]
  | cons c rest =>
    have h1 := createNodes_y_map cfg c level idx totalSiblings parentX
    have h2 := createNodesList_y_map cfg rest level (idx + 1) totalSiblings parentX
    simp only [createNodesList, depthsListFrom, List.map_append, h1, h2]
termination_by structural cs

end

/-! ## Claim theorems -/

/-- C2: for every tree with N nodes, the layout engine produces exactly N
positioned nodes and N−1 edges, the edges being exactly the parent–child
pairs directed parent→child.  Proved for every spacing configuration and
with no structural side conditions: `createNodes` pushes one flow node per
tree node and `createEdges` one edge per parent–child pair, so the claim's
uniqueness/reachability hypotheses are not even needed. -/
theorem layout_node_edge_counts (cfg : SpacingConfig) (root : AttackTreeNode) :
    (createNodes cfg root 0 0 1 0).length = root.size ∧
    (createEdges root).length = root.size - 1 ∧
    (createEdges root).map (fun e => (e.source, e.target)) = parentChildPairs root :=
  ⟨createNodes_length cfg root 0 0 1 0, createEdges_length root,
    createEdges_pairs root⟩

/-- C3: the root node's computed position is exactly `(0, 0)` for every
tree and every spacing configuration — the first flow node emitted is the
root with `x = 0` and `y = 0`, whatever the configuration's fields are. -/
theorem root_position_zero (cfg : SpacingConfig) (root : AttackTreeNode) :
    (createNodes cfg root 0 0 1 0).head? =
      some { id := root.id, type := flowType root.type?, x := 0, y := 0,
             label := root.label } := by
  rw [createNodes_cons]
  simp [xAt, yAt]

/-- C5: every node at depth `d` receives the y-coordinate
`d * (verticalBase + d * verticalIncrement)`: the y-coordinates of the
layout output are exactly the preorder node depths mapped through that
formula, for every tree, configuration and starting level. -/
theorem layout_y_formula (cfg : SpacingConfig) (n : AttackTreeNode)
    (level position totalSiblings : ℕ) (parentX : ℚ) :
    (createNodes cfg n level position totalSiblings parentX).map FlowNode.y =
      (depthsFrom n level).map
        (fun (d : ℕ) => (d : ℚ) * (cfg.verticalBase + (d : ℚ) * cfg.verticalIncrement)) :=
  createNodes_y_map cfg n level position totalSiblings parentX

theorem createNodesList_mem_head (cfg : SpacingConfig) (cs : List AttackTreeNode)
    (level idx totalSiblings : ℕ) (parentX : ℚ) (i : ℕ) (h : i < cs.length) :
    { id := (cs.get ⟨i, h⟩).id, type := flowType (cs.get ⟨i, h⟩).type?,
      x := xAt cfg level (idx + i) totalSiblings parentX, y := yAt cfg level,
      label := (cs.get ⟨i, h⟩).label } ∈
      createNodesList cfg cs level idx totalSiblings parentX := by
  induction cs generalizing idx i with
  | nil => simp at h
  | cons c rest ih =>
    cases i with
    | zero =>
      simp only [List.get, createNodesList, Nat.add_zero]
      apply List.mem_append_left
      rw [createNodes_cons]
      exact List.mem_cons_self _ _
    | succ j =>
      have hj : j < rest.length := by simpa using h
      have := ih (idx + 1) j hj
      simp only [List.get, createNodesList]
      apply List.mem_append_right
      have harg : idx + 1 + j = idx + (j + 1) := by omega
      rw [← harg]
      exact this

/-- C4: each depth-1 child of the root receives the x-coordinate
`-totalWidth/2 + index*gap` with
`gap = baseWidth * level1.xGapMultiplier * max(1, k * level1.siblingFactor)`
and `totalWidth = gap * (k - 1)`, for every spacing configuration and
every number `k ≥ 1` of children; and with the configuration hard-coded in
the source, the x-coordinates of three depth-1 children are symmetric
about `0` and strictly increasing in input order. -/
theorem level1_children_x (cfg : SpacingConfig) (rid : String)
    (rt : Option String) (rl : String) (cs : List AttackTreeNode) (i : ℕ)
    (h : i < cs.length) :
    (∃ fn ∈ createNodes cfg (.mk rid rt rl cs) 0 0 1 0,
      fn.id = (cs.get ⟨i, h⟩).id ∧
      fn.x = -(cfg.baseWidth * cfg.level1.xGapMultiplier *
            max 1 ((cs.length : ℚ) * cfg.level1.siblingFactor) *
            ((cs.length : ℚ) - 1)) / 2 +
          (i : ℚ) * (cfg.baseWidth * cfg.level1.xGapMultiplier *
            max 1 ((cs.length : ℚ) * cfg.level1.siblingFactor))) ∧
    ∀ (c1 c2 c3 : AttackTreeNode) (rid2 : String) (rt2 : Option String)
      (rl2 : String),
      ∃ f1 ∈ createNodes defaultSpacingConfig (.mk rid2 rt2 rl2 [c1, c2, c3]) 0 0 1 0,
      ∃ f2 ∈ createNodes defaultSpacingConfig (.mk rid2 rt2 rl2 [c1, c2, c3]) 0 0 1 0,
      ∃ f3 ∈ createNodes defaultSpacingConfig (.mk rid2 rt2 rl2 [c1, c2, c3]) 0 0 1 0,
        f1.id = c1.id ∧ f2.id = c2.id ∧ f3.id = c3.id ∧
        f1.x + f3.x = 0 ∧ f2.x = 0 ∧ f1.x < f2.x ∧ f2.x < f3.x := by
  constructor
  · have hm := createNodesList_mem_head cfg cs 1 0 cs.length
      (xAt cfg 0 0 1 0) i h
    refine ⟨{ id := (cs.get ⟨i, h⟩).id, type := flowType (cs.get ⟨i, h⟩).type?,
              x := xAt cfg 1 (0 + i) cs.length (xAt cfg 0 0 1 0), y := yAt cfg 1,
              label := (cs.get ⟨i, h⟩).label }, ?_, rfl, ?_⟩
    · rw [createNodes_cons]
      exact List.mem_cons_of_mem _ (by simpa using hm)
    · show xAt cfg 1 (0 + i) cs.length (xAt cfg 0 0 1 0) = _
      simp [xAt, xGapAt]
  · intro c1 c2 c3 rid2 rt2 rl2
    have h1 := createNodesList_mem_head defaultSpacingConfig [c1, c2, c3] 1 0 3
      (xAt defaultSpacingConfig 0 0 1 0) 0 (by simp)
    have h2 := createNodesList_mem_head defaultSpacingConfig [c1, c2, c3] 1 0 3
      (xAt defaultSpacingConfig 0 0 1 0) 1 (by simp)
    have h3 := createNodesList_mem_head defaultSpacingConfig [c1, c2, c3] 1 0 3
      (xAt defaultSpacingConfig 0 0 1 0) 2 (by simp)
    have hmem : ∀ fn, fn ∈ createNodesList defaultSpacingConfig [c1, c2, c3] 1 0 3
        (xAt defaultSpacingConfig 0 0 1 0) →
        fn ∈ createNodes defaultSpacingConfig (.mk rid2 rt2 rl2 [c1, c2, c3]) 0 0 1 0 := by
      intro fn hfn
      rw [createNodes_cons]
      apply List.mem_cons_of_mem
      simpa using hfn
    refine ⟨_, hmem _ h1, _, hmem _ h2, _, hmem _ h3, rfl, rfl, rfl, ?_, ?_, ?_, ?_⟩ <;>
      norm_num [xAt, xGapAt, defaultSpacingConfig]

/-- Closed witness for `level1_children_x`: on a concrete root with one
depth-1 child, the layout output contains a flow node carrying the child's
id. -/
theorem level1_children_x_witness :
    ∃ fn ∈ createNodes defaultSpacingConfig
      (.mk "r" (some "goal") "R" [goalNode]) 0 0 1 0, fn.id = "g" := by
  obtain ⟨fn, hmem, hid, hx⟩ :=
    (level1_children_x defaultSpacingConfig "r" (some "goal") "R" [goalNode] 0
      (by decide)).1
  exact ⟨fn, hmem, by simpa [goalNode, AttackTreeNode.id] using hid⟩

theorem countDecl_append (a b : List MermaidStmt) (i : String) :
    countDecl (a ++ b) i = countDecl a i + countDecl b i :=
  List.countP_append _ _ _

theorem countDecl_edge (p c i : String) : countDecl [.edge p c] i = 0 := rfl

theorem countDecl_decl (j l i : String) :
    countDecl [.decl j l] i = if j = i then 1 else 0 := by
  by_cases hj : j = i
  · simp [countDecl, List.countP, List.countP.go, hj]
  · have hb : (j == i) = false := beq_eq_false_iff_ne.mpr hj
    simp [countDecl, List.countP, List.countP.go, hb, hj]

mutual

theorem processNode_inv (n : AttackTreeNode) (st : ExportState)
    (h : DeclInvariant st) :
    DeclInvariant (processNode n st) ∧ st.1 ⊆ (processNode n st).1 := by
  cases n with
  | mk i t l cs =>
    rw [processNode]
    by_cases hi : i ∈ st.1
    · simp only [hi, if_pos]
      exact ⟨h, fun x hx => hx⟩
    · simp only [hi, if_neg, not_false_iff]
      have hst' : DeclInvariant (i :: st.1, st.2 ++ [.decl i (escapeLabel l)]) := by
        intro j
        constructor
        · intro hj
          rw [countDecl_append, countDecl_decl]
          rcases List.mem_cons.mp hj with hj | hj
          · subst hj
            have h0 := (h j).2 hi
            simp [h0]
          · by_cases hij : i = j
            · subst hij
              have h0 := (h i).2 hi
              simp [h0]
            · have h1 := (h j).1 hj
              simp [hij]
              omega
        · intro hj
          have hji : j ∉ st.1 := fun hc => hj (List.mem_cons_of_mem _ hc)
          have hij : i ≠ j := fun hc => hj (hc ▸ List.mem_cons_self _ _)
          rw [countDecl_append, countDecl_decl]
          have h0 := (h j).2 hji
          simp [h0, hij]
      have hrec := processChildren_inv i cs
        (i :: st.1, st.2 ++ [.decl i (escapeLabel l)]) hst'
      exact ⟨hrec.1, fun x hx =>
        hrec.2 (List.mem_cons_of_mem _ hx)⟩
termination_by structural n

theorem processChildren_inv (pid : String) (cs : List AttackTreeNode)
    (st : ExportState) (h : DeclInvariant st) :
    DeclInvariant (processChildren pid cs st) ∧
      st.1 ⊆ (processChildren pid cs st).1 := by
  cases cs with
  | nil =>
    rw [processChildren]
    exact ⟨h, fun x hx => hx⟩
  | cons c rest =>
    rw [processChildren]
    have hst' : DeclInvariant (st.1, st.2 ++ [.edge pid c.id]) := by
      intro j
      constructor
      · intro hj
        rw [countDecl_append, countDecl_edge]
        have h1 := (h j).1 hj
        omega
      · intro hj
        rw [countDecl_append, countDecl_edge]
        have h0 := (h j).2 hj
        omega
    have h1 := processNode_inv c (st.1, st.2 ++ [.edge pid c.id]) hst'
    have h2 := processChildren_inv pid rest
      (processNode c (st.1, st.2 ++ [.edge pid c.id])) h1.1
    exact ⟨h2.1, fun x hx => h2.2 (h1.2 hx)⟩
termination_by structural cs

end

mutual

theorem processNode_extends (n : AttackTreeNode) (st : ExportState) :
    st.2 <+: (processNode n st).2 := by
  cases n with
  | mk i t l cs =>
    rw [processNode]
    by_cases hi : i ∈ st.1
    · simp only [hi, if_pos]
      exact List.prefix_refl _
    · simp only [hi, if_neg, not_false_iff]
      have h1 : st.2 <+: st.2 ++ [MermaidStmt.decl i (escapeLabel l)] :=
        List.prefix_append _ _
      exact h1.trans (processChildren_extends i cs
        (i :: st.1, st.2 ++ [.decl i (escapeLabel l)]))
termination_by structural n

theorem processChildren_extends (pid : String) (cs : List AttackTreeNode)
    (st : ExportState) : st.2 <+: (processChildren pid cs st).2 := by
  cases cs with
  | nil =>
    rw [processChildren]
  | cons c rest =>
    rw [processChildren]
    have h1 : st.2 <+: st.2 ++ [MermaidStmt.edge pid c.id] :=
      List.prefix_append _ _
    have h2 := processNode_extends c (st.1, st.2 ++ [.edge pid c.id])
    have h3 := processChildren_extends pid rest
      (processNode c (st.1, st.2 ++ [.edge pid c.id]))
    exact (h1.trans h2).trans h3
termination_by structural cs

end

/-- C7: for every input node list — including lists whose trees reach the
same id through several paths — the diagram exporter emits at most one
node-declaration statement per id, and the export function is a pure
function of its input, so repeated calls on the same tree produce
byte-identical text.  Termination for every input is implicit: the
traversal is a total Lean function over the (finite) tree structure. -/
theorem export_decl_unique (nodes : List AttackTreeNode) (i : String) :
    countDecl (exportStmts nodes) i ≤ 1 ∧
    generateSimplifiedMermaidDiagram nodes = generateSimplifiedMermaidDiagram nodes := by
  refine ⟨?_, rfl⟩
  have hinit : DeclInvariant ([], []) := by
    intro j
    constructor
    · intro hj
      simp at hj
    · intro _
      rfl
  unfold exportStmts
  cases hr : exportRoot nodes with
  | none => simp [countDecl]
  | some r =>
    have h := (processNode_inv r ([], []) hinit).1
    by_cases hi : i ∈ (processNode r ([], [])).1
    · exact (h i).1 hi
    · rw [(h i).2 hi]
      omega

/-- C10: the visited-id set deduplicates only node declarations, not edge
statements.  First part, fully general: whenever the exporter iterates over
a parent's child list, it appends one edge statement per child encounter,
regardless of whether the child is already in the visited set.  Second
part, at the concrete diamond input (a root whose two children both own a
child with the same id `sc`): the shared id is declared exactly once while
both parents' edge statements to it appear in the output. -/
theorem export_edges_per_encounter (pid : String) (cs : List AttackTreeNode)
    (st : ExportState) :
    (∀ c ∈ cs, MermaidStmt.edge pid c.id ∈ (processChildren pid cs st).2) ∧
    countDecl (exportStmts [diamondRootNode]) "sc" = 1 ∧
    MermaidStmt.edge "p1" "sc" ∈ exportStmts [diamondRootNode] ∧
    MermaidStmt.edge "p2" "sc" ∈ exportStmts [diamondRootNode] := by
  refine ⟨?_, ?_, ?_, ?_⟩
  · induction cs generalizing st with
    | nil => intro c hc; simp at hc
    | cons c0 rest ih =>
      intro c hc
      rw [processChildren]
      rcases List.mem_cons.mp hc with hc | hc
      · subst hc
        have hmem : MermaidStmt.edge pid c.id ∈ st.2 ++ [MermaidStmt.edge pid c.id] :=
          List.mem_append_right _ (List.mem_singleton.mpr rfl)
        have h1 := processNode_extends c (st.1, st.2 ++ [.edge pid c.id])
        have h2 := processChildren_extends pid rest
          (processNode c (st.1, st.2 ++ [.edge pid c.id]))
        exact h2.subset (h1.subset hmem)
      · exact ih _ c hc
  · decide
  · decide
  · decide

/-- Closed witness for `export_edges_per_encounter`: at a concrete parent
id and child list, the emitted output contains the parent's edge to the
child. -/
theorem export_edges_per_encounter_witness :
    MermaidStmt.edge "p" "x" ∈
      (processChildren "p" [AttackTreeNode.mk "x" none "X" []] (["p"], [])).2 :=
  (export_edges_per_encounter "p" [AttackTreeNode.mk "x" none "X" []] (["p"], [])).1
    (AttackTreeNode.mk "x" none "X" []) (List.mem_singleton.mpr rfl)

theorem clearUnreadNodes_paths (data : Envelope) :
    resResATNodes (clearUnreadNodes data) = resResATNodes data ∧
    resATNodes (clearUnreadNodes data) = resATNodes data ∧
    resNodes (clearUnreadNodes data) = resNodes data := by
  rcases data with ⟨nds, res⟩
  rcases res with _ | ⟨rres, rat, rn⟩
  · simp [clearUnreadNodes, resResATNodes, resATNodes, resNodes]
  · rcases rres with _ | ⟨rrat, rrn⟩ <;>
      simp [clearUnreadNodes, resResATNodes, resATNodes, resNodes]

/-- C1 (amended): the normalizer recognizes exactly the shapes
`result.result.attack_tree.nodes`, `result.attack_tree.nodes` and
`result.nodes`, in that precedence order; it returns `none` — never
throwing, being a total function — exactly when all three are absent, and
its result is unaffected by node lists stored at the undocumented-by-code
locations top-level `nodes` and `result.result.nodes`. -/
theorem extract_recognized_shapes (data : Envelope) (ns : List AttackTreeNode) :
    (extractTreeNodes data = some ns ↔
      resResATNodes data = some ns ∨
      (resResATNodes data = none ∧ resATNodes data = some ns) ∨
      (resResATNodes data = none ∧ resATNodes data = none ∧
        resNodes data = some ns)) ∧
    (extractTreeNodes data = none ↔
      resResATNodes data = none ∧ resATNodes data = none ∧
        resNodes data = none) ∧
    extractTreeNodes data = extractTreeNodes (clearUnreadNodes data) := by
  obtain ⟨hp1, hp2, hp3⟩ := clearUnreadNodes_paths data
  refine ⟨?_, ?_, ?_⟩
  · cases h1 : resResATNodes data <;> cases h2 : resATNodes data <;>
      cases h3 : resNodes data <;>
      simp [extractTreeNodes, h1, h2, h3]
  · cases h1 : resResATNodes data <;> cases h2 : resATNodes data <;>
      cases h3 : resNodes data <;>
      simp [extractTreeNodes, h1, h2, h3]
  · cases h1 : resResATNodes data <;> cases h2 : resATNodes data <;>
      cases h3 : resNodes data <;>
      simp [extractTreeNodes, h1, h2, h3, hp1, hp2, hp3]

/-- Refutation of C1 as stated: an envelope whose node list sits at the
documented shape top-level `nodes` — and one whose list sits at
`result.result.nodes` — is not recognized by the extraction cascade, which
yields `none` instead of the stored list. -/
theorem extract_misses_documented_shapes :
    topNodesEnvelope.nodes = some [goalNode] ∧
    extractTreeNodes topNodesEnvelope = none ∧
    (resResNodesEnvelope.result.bind fun r =>
      r.result.bind fun rr => rr.nodes) = some [goalNode] ∧
    extractTreeNodes resResNodesEnvelope = none := by
  refine ⟨rfl, ?_, rfl, ?_⟩ <;>
    simp [extractTreeNodes, resResATNodes, resATNodes, resNodes,
      topNodesEnvelope, resResNodesEnvelope]

theorem find?_isGoal_first (l : List AttackTreeNode) (g : AttackTreeNode)
    (h : l.find? isGoal = some g) :
    isGoal g = true ∧
      ∃ pre post, l = pre ++ g :: post ∧ ∀ m ∈ pre, isGoal m = false := by
  induction l with
  | nil => simp at h
  | cons a rest ih =>
    by_cases ha : isGoal a
    · rw [List.find?_cons_of_pos _ ha] at h
      obtain rfl : a = g := by simpa using h
      exact ⟨ha, [], rest, rfl, by simp⟩
    · rw [List.find?_cons_of_neg _ ha] at h
      obtain ⟨hg, pre, post, hsplit, hpre⟩ := ih h
      refine ⟨hg, a :: pre, post, by simp [hsplit], ?_⟩
      intro m hm
      rcases List.mem_cons.mp hm with hm | hm
      · subst hm
        exact Bool.eq_false_iff.mpr ha
      · exact hpre m hm

/-- C6 (amended): the layout engine always designates the first node of
the list as root and traverses only from it, regardless of node kinds; the
diagram exporter designates the first node of kind `goal`, or the first
node of the list if none is `goal`-kinded, and traverses only from its
designated root.  The claim's "first Goal, else first" rule thus holds
only for the exporter, not for the layout engine. -/
theorem designated_roots (n : AttackTreeNode) (rest : List AttackTreeNode) :
    layoutFlowOutput (n :: rest) =
      (createNodes defaultSpacingConfig n 0 0 1 0, createEdges n) ∧
    (∀ g, exportRoot (n :: rest) = some g →
      exportStmts (n :: rest) = (processNode g ([], [])).2 ∧
      ((isGoal g = true ∧ ∃ pre post, n :: rest = pre ++ g :: post ∧
          ∀ m ∈ pre, isGoal m = false) ∨
        (g = n ∧ ∀ m ∈ n :: rest, isGoal m = false))) ∧
    ∃ g, exportRoot (n :: rest) = some g := by
  refine ⟨by simp [layoutFlowOutput], ?_, ?_⟩
  · intro g hg
    have hstmts : exportStmts (n :: rest) = (processNode g ([], [])).2 := by
      simp [exportStmts, hg]
    refine ⟨hstmts, ?_⟩
    unfold exportRoot at hg
    cases hf : (n :: rest).find? isGoal with
    | some g' =>
      rw [hf] at hg
      obtain rfl : g' = g := by simpa using hg
      exact Or.inl (find?_isGoal_first _ _ hf)
    | none =>
      rw [hf] at hg
      obtain rfl : n = g := by simpa using hg
      refine Or.inr ⟨rfl, ?_⟩
      intro m hm
      exact Bool.eq_false_iff.mpr (List.find?_eq_none.mp hf m hm)
  · cases hf : (n :: rest).find? isGoal with
    | some g' => exact ⟨g', by simp [exportRoot, hf]⟩
    | none => exact ⟨n, by simp [exportRoot, hf]⟩

/-- Closed witness for `designated_roots`: on the singleton Goal list the
exporter's designated root is that node and the export statements are its
traversal. -/
theorem designated_roots_witness :
    exportStmts [goalNode] = (processNode goalNode ([], [])).2 :=
  ((designated_roots goalNode []).2.1 goalNode rfl).1

/-- Refutation of C6 as stated: on the list `[attackRootNode, goalNode]`
the layout engine roots its traversal at the first node — of kind
`attack`, although a `goal`-kinded node exists in the list — and never
visits the Goal node, while the exporter roots at the Goal node.  The two
components therefore do not both follow the "first Goal, else first"
rule. -/
theorem layout_export_roots_differ :
    (layoutFlowOutput [attackRootNode, goalNode]).1.map FlowNode.id = ["a", "c"] ∧
    isGoal attackRootNode = false ∧
    exportRoot [attackRootNode, goalNode] = some goalNode ∧
    exportStmts [attackRootNode, goalNode] = [.decl "g" "G"] := by
  refine ⟨?_, by decide, rfl, by decide⟩
  simp [layoutFlowOutput, attackRootNode, attackChildNode, createNodes,
    createNodesList]

/-- C8 (amended): for graph rendering, a node's kind defaults to Goal
exactly when the kind is absent or the empty string (`node.type || 'goal'`
substitutes only for falsy values); an unrecognized non-empty kind passes
through to the rendered flow node unchanged.  For diagram export, kind is
consulted only in root selection, where a node counts as Goal exactly when
its kind is the string `goal`. -/
theorem kind_defaulting (t : Option String) (s : String) (n : AttackTreeNode) :
    (flowType t = "goal" ↔ t = none ∨ t = some "" ∨ t = some "goal") ∧
    (s ≠ "" → flowType (some s) = s) ∧
    (isGoal n = true ↔ n.type? = some "goal") ∧
    ((createNodes defaultSpacingConfig n 0 0 1 0).map FlowNode.type).head? =
      some (flowType n.type?) := by
  refine ⟨?_, ?_, ?_, ?_⟩
  · cases t with
    | none => simp [flowType]
    | some s' =>
      by_cases hs : s' = "" <;> simp [flowType, hs]
  · intro hs
    simp [flowType, hs]
  · simp [isGoal]
  · rw [createNodes_cons]
    simp

/-- Closed witness for `kind_defaulting`: the non-empty unrecognized kind
`custom` renders as itself. -/
theorem kind_defaulting_witness :
    flowType (some "custom") = "custom" :=
  (kind_defaulting (some "custom") "custom" goalNode).2.1 (by decide)

/-- Refutation of C8 as stated: a node whose kind is the unrecognized
string `custom` is not treated as if its kind were Goal: the rendered flow
node keeps type `custom` (not `goal`), and in export-root selection the
node does not count as Goal — a later genuine Goal node is chosen over
it. -/
theorem unrecognized_kind_passes_through :
    (createNodes defaultSpacingConfig customKindNode 0 0 1 0).map FlowNode.type =
      ["custom"] ∧
    "custom" ≠ "goal" ∧
    isGoal customKindNode = false ∧
    exportRoot [customKindNode, goalNode] = some goalNode := by
  refine ⟨?_, by decide, by decide, rfl⟩
  simp [customKindNode, createNodes, createNodesList, flowType]

/-- C9: on a single-node tree the layout engine computes exactly one
positioned node (at the origin) and zero edges, but the source's delivery
guard `flowNodes.length > 0 && flowEdges.length > 0` rejects the empty
edge list, so `setNodes`/`setEdges` never run and the visualization
adapter receives nothing — contradicting the claim's (and spec's)
single-node expectation.  The exporter half of the claim holds: the export
text is the header plus exactly one declaration line and no edge lines. -/
theorem single_node_tree_results :
    layoutFlowOutput [singleGoalNode] =
      ([{ id := "n1", type := "goal", x := 0, y := 0, label := "Root" }], []) ∧
    processAttackTreeData [singleGoalNode] = none ∧
    exportStmts [singleGoalNode] = [.decl "n1" "Root"] ∧
    generateSimplifiedMermaidDiagram [singleGoalNode] =
      "graph TD\n    n1[\"Root\"]\n" := by
  have h1 : layoutFlowOutput [singleGoalNode] =
      ([{ id := "n1", type := "goal", x := 0, y := 0, label := "Root" }], []) := by
    simp [layoutFlowOutput, singleGoalNode, createNodes, createNodesList,
      createEdges, createEdgesList, flowType, xAt, yAt]
  refine ⟨h1, ?_, by decide, by decide⟩
  simp [processAttackTreeData, h1]

